import Mathlib

set_option linter.unusedVariables false

/-!
Shallow embedding of the MinuteWise clients (web + mobile) and proofs about
the behaviour of their form validation, upload handling, status polling,
remote-call error handling, participant-role assignment, Kanban-board
placement and resource cleanup.

Conventions of the embedding:
* JavaScript strings are `String`; an optionally present string field
  (possibly `undefined`/`null`) is `Option String`.
* JavaScript truthiness on such a field: `none` and `some ""` are falsy.
* A remote call that can fail is a value of `Except` fed to the function
  under study; the function itself is pure.
-/

namespace MinuteWise

/-- The JavaScript `\s` character class (also the set stripped by
`String.prototype.trim`): tab, LF, VT, FF, CR, space, NBSP, and the
Unicode space separators, line separators and BOM. -/
def jsWhitespace (c : Char) : Bool :=
  c == ' ' || c == '\t' || c == '\n' || c == '\x0b' || c == '\x0c' || c == '\r' ||
  c == '\u00A0' || c == '\u1680' || (0x2000 ≤ c.toNat && c.toNat ≤ 0x200A) ||
  c == '\u2028' || c == '\u2029' || c == '\u202F' || c == '\u205F' ||
  c == '\u3000' || c == '\uFEFF'

/-- JavaScript truthiness of an optional string: `undefined`, `null` and
the empty string are falsy. -/
def jsTruthy : Option String → Bool
  | none => false
  | some s => !(s == "")

/-- JavaScript `x || null` on an optional string. -/
def jsOrNull : Option String → Option String
  | none => none
  | some s => if s == "" then none else some s

/-- `String.prototype.trim`: strip leading and trailing `\s` characters. -/
def jsTrim (s : String) : String :=
  ⟨((s.data.dropWhile jsWhitespace).reverse.dropWhile jsWhitespace).reverse⟩

/-- ASCII-folding lowercase, the embedding of `String.prototype.toLowerCase`. -/
def jsToLower (s : String) : String :=
  ⟨s.data.map Char.toLower⟩

/-- `String.prototype.endsWith`, expressed on the character lists. -/
def jsEndsWith (s suffix : String) : Bool :=
  List.isSuffixOf suffix.data s.data

namespace participantService

/-- The character class `[^\s@]` of the email regex in
`participantService.validateEmail`. -/
def emailChar (c : Char) : Bool :=
  !jsWhitespace c && c != '@'

/-- Decides `∃ x y, l = x ++ '.' :: y ∧ y ≠ []`: some `'.'` occurs
strictly before the last position. -/
def dotBeforeEnd : List Char → Bool
  | c :: x :: t => c == '.' || dotBeforeEnd (x :: t)
  | _ => false

/-- Decides whether a `'.'` occurs at an interior position of `l`
(neither first nor last). -/
def interiorDot : List Char → Bool
  | [] => false
  | _ :: rest => dotBeforeEnd rest

/-- `participantService.validateEmail`: the test of the anchored regex
`[^\s@]+@[^\s@]+\.[^\s@]+` against the whole string.  The leading
`[^\s@]+` cannot cross an `'@'`, so it must be exactly the maximal
`emailChar` prefix; the part after `'@'` must again be all `emailChar`
and contain a literal dot with at least one character on each side. -/
def validateEmail (email : String) : Bool :=
  match email.data.dropWhile emailChar with
  | '@' :: b =>
      !(email.data.takeWhile emailChar).isEmpty && b.all emailChar && interiorDot b
  | _ => false

/-- The language of the regex `/^[^\s@]+@[^\s@]+\.[^\s@]+$/`, written as
the existence of a decomposition `a @ c . d` with `a`, `c`, `d` nonempty
words over `[^\s@]`. -/
def emailRegexMatches (email : String) : Prop :=
  ∃ a c d : List Char,
    email.data = a ++ '@' :: (c ++ '.' :: d) ∧
    a ≠ [] ∧ c ≠ [] ∧ d ≠ [] ∧
    (∀ ch ∈ a, emailChar ch = true) ∧
    (∀ ch ∈ c, emailChar ch = true) ∧
    (∀ ch ∈ d, emailChar ch = true)

/-- A participant record as fed to `participantService.validateParticipant`:
both fields may be absent. -/
structure Participant where
  name : Option String
  email : Option String
deriving DecidableEq

/-- The result object of `validateParticipant`. -/
structure ValidationResult where
  valid : Bool
  error : Option String
deriving DecidableEq

/-- The first guard of `validateParticipant`:
`!participant.name || participant.name.trim().length === 0`. -/
def nameRejected (participant : Participant) : Bool :=
  match participant.name with
  | none => true
  | some s => s == "" || (jsTrim s).length == 0

/-- The second guard of `validateParticipant`:
`!participant.email || !this.validateEmail(participant.email)`. -/
def emailRejected (participant : Participant) : Bool :=
  match participant.email with
  | none => true
  | some s => s == "" || !validateEmail s

/-- `participantService.validateParticipant`. -/
def validateParticipant (participant : Participant) : ValidationResult :=
  if nameRejected participant then ⟨false, some "Name is required"⟩
  else if emailRejected participant then ⟨false, some "Valid email is required"⟩
  else ⟨true, none⟩

end participantService



namespace useTranscription

/-- The `data` object of a failed axios response: may carry a `detail`. -/
structure ErrDetailObj where
  detail : Option String
deriving DecidableEq

/-- A failed axios response object (`error.response`). -/
structure ErrResponseObj where
  data : Option ErrDetailObj
deriving DecidableEq

/-- An axios error as inspected by the hook: only `error.response` is
consulted.  A network failure is an error whose `response` is absent. -/
structure ApiError where
  response : Option ErrResponseObj
deriving DecidableEq

/-- The optional chain `error.response?.data?.detail`. -/
def detailOf (e : ApiError) : Option String :=
  (e.response.bind (fun r => r.data)).bind (fun d => d.detail)

/-- JavaScript `x || fallback` applied to an optional-chain result:
`undefined` and the empty string fall through to the fallback. -/
def orFallback (d : Option String) (fallback : String) : String :=
  match d with
  | some s => if s == "" then fallback else s
  | none => fallback

/-- A meeting as returned by the backend; only `status` matters here. -/
structure Meeting where
  status : String
deriving DecidableEq

/-- Body of a successful `/meetings/upload` response. -/
structure UploadResp where
  meeting_id : Option String
  message : Option String
deriving DecidableEq

/-- Body of a successful action-item update response. -/
structure ActionItemUpdate where
  status : Option String
deriving DecidableEq

/-- The result object every hook operation resolves to. -/
structure OpResult (α : Type) where
  success : Bool
  data : Option α
  error : Option String
deriving DecidableEq

/-- `useTranscription.uploadAudio`, as a function of the remote outcome. -/
def uploadAudio (outcome : Except ApiError UploadResp) : OpResult UploadResp :=
  match outcome with
  | .ok r => ⟨true, some r, none⟩
  | .error e => ⟨false, none, some (orFallback (detailOf e) "Upload failed")⟩

/-- `useTranscription.getMeeting`. -/
def getMeeting (outcome : Except ApiError Meeting) : OpResult Meeting :=
  match outcome with
  | .ok r => ⟨true, some r, none⟩
  | .error e => ⟨false, none, some (orFallback (detailOf e) "Failed to fetch meeting")⟩

/-- `useTranscription.getUserMeetings`. -/
def getUserMeetings (outcome : Except ApiError (List Meeting)) : OpResult (List Meeting) :=
  match outcome with
  | .ok r => ⟨true, some r, none⟩
  | .error e => ⟨false, none, some (orFallback (detailOf e) "Failed to fetch meetings")⟩

/-- `useTranscription.updateActionItem`. -/
def updateActionItem (outcome : Except ApiError ActionItemUpdate) : OpResult ActionItemUpdate :=
  match outcome with
  | .ok r => ⟨true, some r, none⟩
  | .error e => ⟨false, none, some (orFallback (detailOf e) "Failed to update action item")⟩

/-- `useTranscription.deleteMeeting`. -/
def deleteMeeting (outcome : Except ApiError Unit) : OpResult Unit :=
  match outcome with
  | .ok _ => ⟨true, none, none⟩
  | .error e => ⟨false, none, some (orFallback (detailOf e) "Failed to delete meeting")⟩

/-- How `pollMeetingStatus` can stop. -/
inductive PollOutcome
  | timeout
  | done (m : Meeting)
  | failedStatus
deriving DecidableEq

/-- `const pollInterval = 5000` inside `pollMeetingStatus`. -/
def pollIntervalMs : Nat := 5000

/-- The default of the `maxAttempts` argument of `pollMeetingStatus`. -/
def defaultMaxAttempts : Nat := 60

/-- The error `pollMeetingStatus` reports through `setError` for each way
of stopping. -/
def pollError : PollOutcome → Option String
  | .timeout => some "Processing timeout - please check back later"
  | .done _ => none
  | .failedStatus => some "Transcription processing failed"

/-- Whether a fetched meeting ends the poll loop. -/
def terminalStatus (r : Except ApiError Meeting) : Bool :=
  match r with
  | .ok m => m.status == "completed" || m.status == "failed"
  | .error _ => false

/-- The inner `poll` closure of `pollMeetingStatus`, with the mutable
`attempts` counter made explicit.  `env k` is the outcome of the `k`-th
`getMeeting` call.  Returns how the loop stopped together with the number
of `getMeeting` calls it performed. -/
def pollFrom (env : Nat → Except ApiError Meeting) (maxAttempts attempts : Nat) :
    PollOutcome × Nat :=
  if _h : maxAttempts ≤ attempts then (.timeout, 0)
  else
    let result := getMeeting (env attempts)
    match result.success, result.data with
    | true, some m =>
        if m.status = "completed" then (.done m, 1)
        else if m.status = "failed" then (.failedStatus, 1)
        else
          let rest := pollFrom env maxAttempts (attempts + 1)
          (rest.1, rest.2 + 1)
    | _, _ =>
        let rest := pollFrom env maxAttempts (attempts + 1)
        (rest.1, rest.2 + 1)
termination_by maxAttempts - attempts
decreasing_by
  all_goals simp_wf
  all_goals omega

/-- `useTranscription.pollMeetingStatus meetingId onStatusUpdate maxAttempts`:
starts the loop with `attempts = 0` (the source default for `maxAttempts`
is `defaultMaxAttempts`). -/
def pollMeetingStatus (env : Nat → Except ApiError Meeting) (maxAttempts : Nat) :
    PollOutcome × Nat :=
  pollFrom env maxAttempts 0

/-- How the loop stops on a terminal meeting. -/
def outcomeOf (m : Meeting) : PollOutcome :=
  if m.status = "completed" then .done m else .failedStatus

end useTranscription

namespace audioUpload

/-- A selected file as seen by `AudioUpload.handleFileChange`:
`name`, MIME `type` and `size` in bytes. -/
structure FileInfo where
  name : String
  type : String
  size : Nat
deriving DecidableEq

/-- `const maxSize = 100 * 1024 * 1024`. -/
def maxSize : Nat := 100 * 1024 * 1024

/-- The `validTypes` array of `handleFileChange`. -/
def validTypes : List String :=
  ["audio/wav", "audio/mpeg", "audio/mp3", "audio/m4a",
   "audio/aac", "audio/ogg", "audio/webm", "audio/mp4"]

/-- The `validExtensions` array of `handleFileChange`. -/
def validExtensions : List String :=
  [".wav", ".mp3", ".m4a", ".aac", ".ogg", ".webm", ".mp4"]

/-- `isValidType` inside `handleFileChange`. -/
def isValidType (f : FileInfo) : Bool :=
  validTypes.contains f.type ||
    validExtensions.any (fun ext => jsEndsWith (jsToLower f.name) ext)

/-- The component state touched by `handleFileChange`: the accepted file
and the inline error banner text (`''` meaning no error). -/
structure UploadFormState where
  file : Option FileInfo
  error : String
deriving DecidableEq

/-- `AudioUpload.handleFileChange`: clears the error, then size check
first, then type check; only a passing file replaces `file`. -/
def handleFileChange (st : UploadFormState) (selectedFile : Option FileInfo) :
    UploadFormState :=
  let stc : UploadFormState := { st with error := "" }
  match selectedFile with
  | none => stc
  | some f =>
      if f.size > maxSize then
        { stc with error := "File size must be less than 100MB" }
      else if isValidType f then
        { stc with file := some f }
      else
        { stc with error := "Please select a valid audio file (WAV, MP3, M4A, AAC, OGG, WebM, MP4)" }

/-- Body of a successful `/transcription/upload` response. -/
structure RespData where
  meeting_id : Option String
deriving DecidableEq

/-- The failed axios response as read by `handleUpload`: the optional
chain `error.response.data?.detail` and `error.response.statusText`. -/
structure ErrorResponse where
  detail : Option String
  statusText : String
deriving DecidableEq

/-- An axios failure: `response` present for a server-reported failure,
`request` present (response absent) for a network failure. -/
structure AxiosFailure where
  response : Option ErrorResponse
  request : Bool
  message : String
deriving DecidableEq

/-- The outcome of `handleUpload` observable in the UI: the route passed
to `navigate` (if any) and the error banner text. -/
structure UploadUiState where
  navigateTo : Option String
  error : String
deriving DecidableEq

/-- `error.response.data?.detail || error.response.statusText || 'Server error'`. -/
def firstTruthy (detail : Option String) (statusText fallback : String) : String :=
  match detail with
  | some s =>
      if s == "" then (if statusText == "" then fallback else statusText) else s
  | none => if statusText == "" then fallback else statusText

/-- `AudioUpload.handleUpload` as a function of the selected file and the
outcome of the upload request.  A response without a (truthy) meeting id
raises `Error('No meeting ID returned from server')`, which the same
handler catches in its final branch (no `response`, no `request`). -/
def handleUpload (file : Option FileInfo) (outcome : Except AxiosFailure RespData) :
    UploadUiState :=
  match file with
  | none => ⟨none, "Please select an audio file"⟩
  | some _ =>
      match outcome with
      | .ok resp =>
          match resp.meeting_id with
          | some id =>
              if id == "" then ⟨none, "Upload failed: No meeting ID returned from server"⟩
              else ⟨some ("/transcript/" ++ id), ""⟩
          | none => ⟨none, "Upload failed: No meeting ID returned from server"⟩
      | .error e =>
          match e.response with
          | some r =>
              ⟨none, "Upload failed: " ++ firstTruthy r.detail r.statusText "Server error"⟩
          | none =>
              if e.request then
                ⟨none, "Network error: Cannot reach server. Please check your connection."⟩
              else
                ⟨none, "Upload failed: " ++ e.message⟩

end audioUpload

namespace meetingDetails

/-- One entry of the `statusConfig` object in `StatusBadge`. -/
structure BadgeConfig where
  bg : String
  text : String
  label : String
deriving DecidableEq

/-- What a JavaScript property read `statusConfig[status]` can produce on
the object literal: one of its four own entries; a truthy member
inherited from `Object.prototype` (such as `toString` or `constructor`);
or `undefined`. -/
inductive Lookup
  | own (config : BadgeConfig)
  | inherited
  | absent
deriving DecidableEq

/-- The string keys that reach an `Object.prototype` member on a plain
object literal: its methods plus the `__proto__` accessor, every one of
them a truthy value. -/
def objectProtoKeys : List String :=
  ["constructor", "hasOwnProperty", "isPrototypeOf", "propertyIsEnumerable",
   "toLocaleString", "toString", "valueOf", "__proto__",
   "__defineGetter__", "__defineSetter__", "__lookupGetter__", "__lookupSetter__"]

/-- The JS read `statusConfig[status]`, prototype chain included: the four
own keys of the literal, then the inherited `Object.prototype` members,
then `undefined`. -/
def statusConfig (status : String) : Lookup :=
  if status = "pending" then .own ⟨"bg-gray-100", "text-gray-700", "Pending"⟩
  else if status = "processing" then .own ⟨"bg-yellow-100", "text-yellow-700", "Processing"⟩
  else if status = "completed" then .own ⟨"bg-green-100", "text-green-700", "Completed"⟩
  else if status = "failed" then .own ⟨"bg-red-100", "text-red-700", "Failed"⟩
  else if objectProtoKeys.contains status then .inherited
  else .absent

/-- What the `StatusBadge` span renders: a badge configuration, or — when
`config` is a truthy inherited member carrying no `bg`, `text` or
`label` — no classes and no label. -/
inductive RenderedBadge
  | badge (config : BadgeConfig)
  | noConfig
deriving DecidableEq

/-- `const config = statusConfig[status] || statusConfig.pending` followed
by rendering `config.bg`, `config.text` and `config.label`: only a falsy
lookup (`undefined`) falls through to the `Pending` entry, so a truthy
inherited member short-circuits the `||` and is rendered with all three
fields `undefined`. -/
def statusBadge (status : String) : RenderedBadge :=
  match statusConfig status with
  | .own c => .badge c
  | .inherited => .noConfig
  | .absent => .badge ⟨"bg-gray-100", "text-gray-700", "Pending"⟩

end meetingDetails

namespace supabaseHelpers

/-- A remote call issued by the web `supabaseHelpers` (auth endpoint,
storage bucket operation, or table operation).  `getPublicUrl` is not
listed: it is a purely local URL computation. -/
inductive RemoteOp
  | authGetUser
  | storageUpload (path : String)
  | dbInsert (table : String)
  | dbSelect (table : String)
  | storageRemove (path : String)
  | dbDelete (table : String)
  | dbUpdate (table : String)
deriving DecidableEq

/-- The authenticated user returned by `supabase.auth.getUser()`. -/
structure SbUser where
  id : String
deriving DecidableEq

/-- A supabase error object. -/
structure SbError where
  message : String
deriving DecidableEq

/-- The meetings row returned by the insert in `createMeeting`. -/
structure MeetingRow where
  id : String
deriving DecidableEq

/-- Remote responses consumed by one run of `createMeeting`. -/
structure CreateEnv where
  user : Option SbUser
  now : Nat
  uploadError : Option SbError
  insertData : Option MeetingRow
  insertError : Option SbError
deriving DecidableEq

/-- The object `createMeeting` returns on its normal path. -/
structure CreateResult where
  data : Option MeetingRow
  error : Option SbError
  audioUrl : String
deriving DecidableEq

/-- `supabase.storage.from('recordings').getPublicUrl(fileName)`: local
URL construction from the file name, no network traffic. -/
def getPublicUrl (fileName : String) : String :=
  "recordings/" ++ fileName

/-- `supabaseHelpers.createMeeting(title, audioFile)` with its remote
calls traced in order: auth user fetch, storage upload (thrown on
failure), then the meetings insert whose `{ data, error }` is returned
unchecked together with the public URL. -/
def createMeeting (env : CreateEnv) (title : Option String) (audioFileName : String) :
    Except SbError CreateResult × List RemoteOp :=
  match env.user with
  | none => (.error ⟨"Not authenticated"⟩, [.authGetUser])
  | some user =>
      let fileName := user.id ++ "/" ++ toString env.now ++ "_" ++ audioFileName
      match env.uploadError with
      | some e => (.error e, [.authGetUser, .storageUpload fileName])
      | none =>
          let publicUrl := getPublicUrl fileName
          (.ok ⟨env.insertData, env.insertError, publicUrl⟩,
            [.authGetUser, .storageUpload fileName, .dbInsert "meetings"])

/-- Remote responses consumed by one run of `deleteMeeting`. -/
structure DeleteEnv where
  user : Option SbUser
  fetchedPath : Except SbError (Option String)
  removeError : Option SbError
  deleteError : Option SbError

/-- What `deleteMeeting` resolves to: `{ success: true }` or `{ error }`. -/
inductive DeleteResult
  | success
  | failure (e : SbError)
deriving DecidableEq

/-- `supabaseHelpers.deleteMeeting(meetingId)` with its remote calls
traced in order: auth user fetch (`Not authenticated` is thrown before
the try block), the read of `audio_file_path`, a storage removal when
that path is truthy (its error is only logged), then the meetings
delete. -/
def deleteMeeting (env : DeleteEnv) (meetingId : String) :
    Except SbError DeleteResult × List RemoteOp :=
  match env.user with
  | none => (.error ⟨"Not authenticated"⟩, [.authGetUser])
  | some _ =>
      match env.fetchedPath with
      | .error e => (.ok (.failure e), [.authGetUser, .dbSelect "meetings"])
      | .ok audioFilePath =>
          let removalOps :=
            match jsOrNull audioFilePath with
            | some p => [RemoteOp.storageRemove p]
            | none => []
          let ops := [RemoteOp.authGetUser, .dbSelect "meetings"] ++ removalOps ++
            [.dbDelete "meetings"]
          match env.deleteError with
          | some e => (.ok (.failure e), ops)
          | none => (.ok .success, ops)

/-- The action-items row returned by `updateActionItemStatus`. -/
structure ActionItemRow where
  id : String
  status : String
deriving DecidableEq

/-- Remote response consumed by `updateActionItemStatus`. -/
structure UpdateEnv where
  updateData : Option ActionItemRow
  updateError : Option SbError
deriving DecidableEq

/-- The `{ data, error }` object `updateActionItemStatus` returns. -/
structure UpdateResult where
  data : Option ActionItemRow
  error : Option SbError
deriving DecidableEq

/-- `supabaseHelpers.updateActionItemStatus(actionItemId, status)`: a
single table update. -/
def updateActionItemStatus (env : UpdateEnv) (actionItemId : String) (status : String) :
    UpdateResult × List RemoteOp :=
  (⟨env.updateData, env.updateError⟩, [.dbUpdate "action_items"])

end supabaseHelpers

namespace runtime

/-- The live timers and realtime channels of the page: interval handles
with their periods, channel handles with their topics, and a fresh-handle
counter. -/
structure ResState where
  intervals : List (Nat × Nat)
  channels : List (Nat × String)
  nextId : Nat
deriving DecidableEq

/-- `window.setInterval(f, periodMs)`: registers a fresh handle. -/
def setInterval (periodMs : Nat) (st : ResState) : Nat × ResState :=
  (st.nextId,
    { intervals := (st.nextId, periodMs) :: st.intervals
      channels := st.channels
      nextId := st.nextId + 1 })

/-- `window.clearInterval(handle)`. -/
def clearInterval (handle : Nat) (st : ResState) : ResState :=
  { st with intervals := st.intervals.filter (fun r => r.1 != handle) }

/-- `supabaseHelpers.subscribeMeetingUpdates(meetingId, cb)`: subscribes
the channel `meeting-<id>` and returns its handle. -/
def subscribeMeetingUpdates (meetingId : String) (st : ResState) : Nat × ResState :=
  (st.nextId,
    { intervals := st.intervals
      channels := (st.nextId, "meeting-" ++ meetingId) :: st.channels
      nextId := st.nextId + 1 })

/-- `supabase.removeChannel(subscription)`. -/
def removeChannel (handle : Nat) (st : ResState) : ResState :=
  { st with channels := st.channels.filter (fun c => c.1 != handle) }

/-- `supabaseHelpers.unsubscribe(subscription)`: removes the channel only
when the subscription object is present. -/
def unsubscribe (subscription : Option Nat) (st : ResState) : ResState :=
  match subscription with
  | some handle => removeChannel handle st
  | none => st

/-- The mount effect of `MeetingDetails`: subscribe the meeting channel,
then start the 5000 ms re-fetch interval; both handles are kept for the
cleanup closure. -/
def meetingDetailsMount (meetingId : String) (st : ResState) : (Nat × Nat) × ResState :=
  let s := subscribeMeetingUpdates meetingId st
  let p := setInterval 5000 s.2
  ((s.1, p.1), p.2)

/-- The cleanup closure returned by the `MeetingDetails` effect:
`unsubscribe(meetingSubscription); clearInterval(pollInterval)`. -/
def meetingDetailsCleanup (refs : Nat × Nat) (st : ResState) : ResState :=
  clearInterval refs.2 (unsubscribe (some refs.1) st)

/-- The state of `useRecorder`: the page resources plus `intervalRef`. -/
structure RecorderState where
  res : ResState
  intervalRef : Option Nat
deriving DecidableEq

/-- The duration-counter part of `useRecorder.startRecording`:
`intervalRef.current = setInterval(..., 1000)`. -/
def startRecording (rs : RecorderState) : RecorderState :=
  let p := setInterval 1000 rs.res
  ⟨p.2, some p.1⟩

/-- `useRecorder.stopRecording`: clears the duration interval when one is
set and resets the ref. -/
def stopRecording (rs : RecorderState) : RecorderState :=
  match rs.intervalRef with
  | some handle => ⟨clearInterval handle rs.res, none⟩
  | none => rs

/-- The `useRecorder` effect cleanup:
`if (intervalRef.current) clearInterval(intervalRef.current)`. -/
def recorderCleanup (rs : RecorderState) : ResState :=
  match rs.intervalRef with
  | some handle => clearInterval handle rs.res
  | none => rs.res

/-- Handles held in the state were all allocated below the counter. -/
def WFRes (st : ResState) : Prop :=
  (∀ r ∈ st.intervals, r.1 < st.nextId) ∧ (∀ c ∈ st.channels, c.1 < st.nextId)

end runtime

namespace mobileService

/-- The authenticated user as read inside `addParticipants`. -/
structure MobileUser where
  id : String
  email : Option String
deriving DecidableEq

/-- One entry of the `participants` argument of `addParticipants`. -/
structure PartIn where
  name : String
  email : Option String
  user_id : Option String
deriving DecidableEq

/-- One row sent to the `participants` insert. -/
structure PartRecord where
  meeting_id : String
  name : String
  email : Option String
  user_id : Option String
  role : String
deriving DecidableEq

/-- `creatorEmail` as computed at the top of `addParticipants`: fetched
only when `creatorUserId` is truthy; lowercased; `none` when the auth
lookup fails or the user has no email. -/
def creatorEmailOf (creatorUserId : Option String) (authUser : Option MobileUser) :
    Option String :=
  match creatorUserId with
  | none => none
  | some cu =>
      if cu == "" then none
      else (authUser.bind (fun u => u.email)).map jsToLower

/-- `isCreator`: `creatorEmail && p.email?.toLowerCase() === creatorEmail`. -/
def isCreator (creatorEmail : Option String) (p : PartIn) : Bool :=
  match creatorEmail with
  | some ce => ce != "" && p.email.map jsToLower == some ce
  | none => false

/-- The record built for the participant at position `index`. -/
def participantRecord (meetingId : String) (creatorUserId creatorEmail : Option String)
    (index : Nat) (p : PartIn) : PartRecord :=
  let isCr := isCreator creatorEmail p
  { meeting_id := meetingId
    name := p.name
    email := p.email
    user_id := if isCr then creatorUserId else jsOrNull p.user_id
    role := if index == 0 || isCr then "admin" else "user" }

/-- The mobile `supabaseService.addParticipants`: the list of rows it
inserts (the insert itself and its error propagation are not at issue
in the claims). -/
def addParticipants (meetingId : String) (creatorUserId : Option String)
    (authUser : Option MobileUser) (participants : List PartIn) : List PartRecord :=
  let creatorEmail := creatorEmailOf creatorUserId authUser
  participants.mapIdx (fun index p =>
    participantRecord meetingId creatorUserId creatorEmail index p)

end mobileService

namespace actionItems

/-- An action item as rendered by the Kanban board. -/
structure BoardItem where
  text : String
  status : Option String
deriving DecidableEq

/-- `item.status || 'pending'`. -/
def effStatus (item : BoardItem) : String :=
  match item.status with
  | some s => if s == "" then "pending" else s
  | none => "pending"

/-- The `id`s of the three Kanban columns. -/
def columnIds : List String := ["pending", "in_progress", "completed"]

/-- `getItemsByStatus`: index-decorate all items, keep those whose
effective status equals the column id. -/
def getItemsByStatus (actionItems : List BoardItem) (status : String) :
    List (BoardItem × Nat) :=
  (actionItems.mapIdx (fun index item => (item, index))).filter
    (fun it => effStatus it.1 == status)

end actionItems

-- ========================= THEOREMS =========================

namespace participantService

theorem dotBeforeEnd_iff (l : List Char) :
    dotBeforeEnd l = true ↔ ∃ x y, l = x ++ '.' :: y ∧ y ≠ [] := by
  induction l with
  | nil =>
      simp only [dotBeforeEnd]
      constructor
      · intro h; cases h
      · rintro ⟨x, y, h, -⟩
        exact absurd h.symm (by simp)
  | cons c t ih =>
      cases t with
      | nil =>
          simp only [dotBeforeEnd]
          constructor
          · intro h; cases h
          · rintro ⟨x, y, h, hy⟩
            cases x with
            | nil =>
                simp only [List.nil_append, List.cons.injEq] at h
                exact absurd h.2.symm hy
            | cons a as =>
                simp only [List.cons_append, List.cons.injEq] at h
                exact absurd h.2.symm (by simp)
      | cons x t2 =>
          simp only [dotBeforeEnd, Bool.or_eq_true, beq_iff_eq]
          constructor
          · rintro (rfl | h)
            · exact ⟨[], x :: t2, rfl, by simp⟩
            · obtain ⟨a, b, hab, hb⟩ := ih.mp h
              exact ⟨c :: a, b, by simp [hab], hb⟩
          · rintro ⟨a, b, hab, hb⟩
            cases a with
            | nil =>
                simp only [List.nil_append, List.cons.injEq] at hab
                exact Or.inl hab.1
            | cons a0 as =>
                simp only [List.cons_append, List.cons.injEq] at hab
                exact Or.inr (ih.mpr ⟨as, b, hab.2, hb⟩)

theorem interiorDot_iff (l : List Char) :
    interiorDot l = true ↔ ∃ c d, l = c ++ '.' :: d ∧ c ≠ [] ∧ d ≠ [] := by
  cases l with
  | nil =>
      simp only [interiorDot]
      constructor
      · intro h; cases h
      · rintro ⟨c, d, h, hc, -⟩
        exact absurd h.symm (by simp [hc])
  | cons h0 rest =>
      simp only [interiorDot, dotBeforeEnd_iff]
      constructor
      · rintro ⟨x, y, hxy, hy⟩
        exact ⟨h0 :: x, y, by simp [hxy], by simp, hy⟩
      · rintro ⟨c, d, hcd, hc, hd⟩
        cases c with
        | nil => exact absurd rfl hc
        | cons c0 cs =>
            simp only [List.cons_append, List.cons.injEq] at hcd
            exact ⟨cs, d, hcd.2, hd⟩

theorem takeWhile_append_all {p : Char → Bool} (a : List Char) (l : List Char)
    (ha : ∀ ch ∈ a, p ch = true) :
    (a ++ l).takeWhile p = a ++ l.takeWhile p := by
  induction a with
  | nil => simp
  | cons x xs ih =>
      have hx : p x = true := ha x (by simp)
      simp only [List.cons_append, List.takeWhile_cons, hx, if_true]
      rw [ih (fun ch hch => ha ch (by simp [hch]))]

theorem dropWhile_append_all {p : Char → Bool} (a : List Char) (l : List Char)
    (ha : ∀ ch ∈ a, p ch = true) :
    (a ++ l).dropWhile p = l.dropWhile p := by
  induction a with
  | nil => simp
  | cons x xs ih =>
      have hx : p x = true := ha x (by simp)
      simp only [List.cons_append, List.dropWhile_cons, hx, if_true]
      exact ih (fun ch hch => ha ch (by simp [hch]))

theorem mem_takeWhile_all {p : Char → Bool} (l : List Char) :
    ∀ ch ∈ l.takeWhile p, p ch = true := by
  induction l with
  | nil => simp
  | cons x xs ih =>
      by_cases hx : p x = true
      · simp only [List.takeWhile_cons, hx, if_true, List.mem_cons]
        rintro ch (rfl | hch)
        · exact hx
        · exact ih ch hch
      · simp only [List.takeWhile_cons, if_neg hx]
        simp

/-- The executable `validateEmail` decides exactly the language of the
regex `/^[^\s@]+@[^\s@]+\.[^\s@]+$/`. -/
theorem validateEmail_iff_matches (email : String) :
    validateEmail email = true ↔ emailRegexMatches email := by
  unfold validateEmail emailRegexMatches
  have hAt : emailChar '@' = false := by decide
  constructor
  · intro h
    split at h
    · rename_i b hdrop
      simp only [Bool.and_eq_true, Bool.not_eq_true'] at h
      obtain ⟨⟨hne, hall⟩, hdot⟩ := h
      obtain ⟨c, d, hb, hc, hd⟩ := (interiorDot_iff b).mp hdot
      refine ⟨email.data.takeWhile emailChar, c, d, ?_, ?_, hc, hd, ?_, ?_, ?_⟩
      · rw [← hb, ← hdrop, List.takeWhile_append_dropWhile]
      · intro hnil; rw [hnil] at hne; simp at hne
      · exact mem_takeWhile_all email.data
      · intro ch hch
        have : ch ∈ b := by rw [hb]; simp [hch]
        exact (List.all_eq_true.mp hall) ch this
      · intro ch hch
        have : ch ∈ b := by rw [hb]; simp [hch]
        exact (List.all_eq_true.mp hall) ch this
    · exact absurd h (by simp)
  · rintro ⟨a, c, d, hdecomp, ha, hc, hd, hchA, hchC, hchD⟩
    have hbAll : ∀ ch ∈ c ++ '.' :: d, emailChar ch = true := by
      intro ch hch
      rcases List.mem_append.mp hch with hch | hch
      · exact hchC ch hch
      · rcases List.mem_cons.mp hch with rfl | hch
        · decide
        · exact hchD ch hch
    have hdrop : email.data.dropWhile emailChar = '@' :: (c ++ '.' :: d) := by
      rw [hdecomp, dropWhile_append_all a _ hchA, List.dropWhile_cons, hAt]
      simp
    have htake : email.data.takeWhile emailChar = a := by
      rw [hdecomp, takeWhile_append_all a _ hchA, List.takeWhile_cons, hAt]
      simp
    rw [hdrop]
    simp only [Bool.and_eq_true, Bool.not_eq_true']
    refine ⟨⟨?_, List.all_eq_true.mpr hbAll⟩, ?_⟩
    · rw [htake]
      cases a with
      | nil => exact absurd rfl ha
      | cons x xs => rfl
    · exact (interiorDot_iff _).mpr ⟨c, d, rfl, hc, hd⟩

theorem jsTrim_length_zero_iff (s : String) :
    (jsTrim s).length = 0 ↔ s.data.all jsWhitespace = true := by
  have h1 : (jsTrim s).length =
      ((s.data.dropWhile jsWhitespace).reverse.dropWhile jsWhitespace).reverse.length := rfl
  rw [h1, List.length_reverse, List.length_eq_zero, List.dropWhile_eq_nil_iff,
    List.all_eq_true]
  constructor
  · intro h x hx
    have hsplit := List.takeWhile_append_dropWhile (p := jsWhitespace) (l := s.data)
    rw [← hsplit] at hx
    rcases List.mem_append.mp hx with h' | h'
    · exact mem_takeWhile_all s.data x h'
    · exact h x (List.mem_reverse.mpr h')
  · intro h x hx
    exact h x (List.Sublist.mem (List.mem_reverse.mp hx) (List.dropWhile_sublist _))


theorem nameRejected_iff (p : Participant) :
    nameRejected p = true ↔
      p.name = none ∨ ∃ s, p.name = some s ∧ s.data.all jsWhitespace = true := by
  cases hname : p.name with
  | none => simp [nameRejected, hname]
  | some s =>
      simp only [nameRejected, hname, Bool.or_eq_true, beq_iff_eq, Nat.beq_eq_true_eq,
        Option.some.injEq, reduceCtorEq, false_or]
      constructor
      · rintro (rfl | htrim)
        · exact ⟨"", rfl, by simp⟩
        · exact ⟨s, rfl, (jsTrim_length_zero_iff s).mp htrim⟩
      · rintro ⟨t, rfl, hall⟩
        exact Or.inr ((jsTrim_length_zero_iff s).mpr hall)

theorem emailRejected_iff (p : Participant) :
    emailRejected p = true ↔
      p.email = none ∨ ∃ s, p.email = some s ∧ ¬ emailRegexMatches s := by
  cases hemail : p.email with
  | none => simp [emailRejected, hemail]
  | some s =>
      simp only [emailRejected, hemail, Bool.or_eq_true, beq_iff_eq, Bool.not_eq_true',
        Option.some.injEq, reduceCtorEq, false_or]
      constructor
      · rintro (rfl | hfalse)
        · refine ⟨"", rfl, fun hm => ?_⟩
          have : validateEmail "" = true := (validateEmail_iff_matches "").mpr hm
          exact absurd this (by decide)
        · exact ⟨s, rfl, fun hm => by
            rw [(validateEmail_iff_matches s).mpr hm] at hfalse; cases hfalse⟩
      · rintro ⟨t, rfl, hm⟩
        refine Or.inr ?_
        cases hv : validateEmail s with
        | false => rfl
        | true => exact absurd ((validateEmail_iff_matches s).mp hv) hm

end participantService

namespace useTranscription

theorem pollFrom_all_nonterminal (env : Nat → Except ApiError Meeting) (maxAttempts : Nat) :
    ∀ n attempts, maxAttempts - attempts = n →
      (∀ k, k < maxAttempts → terminalStatus (env k) = false) →
      pollFrom env maxAttempts attempts = (.timeout, maxAttempts - attempts) := by
  intro n
  induction n with
  | zero =>
      intro attempts hn henv
      rw [pollFrom, dif_pos (by omega), hn]
  | succ n ih =>
      intro attempts hn henv
      rw [pollFrom, dif_neg (by omega : ¬ maxAttempts ≤ attempts)]
      have hterm := henv attempts (by omega)
      have hrec := ih (attempts + 1) (by omega) henv
      cases henva : env attempts with
      | error e =>
          simp only [getMeeting, henva, hrec, Prod.mk.injEq]
          exact ⟨trivial, by omega⟩
      | ok m =>
          rw [henva] at hterm
          simp only [terminalStatus, Bool.or_eq_false_iff, beq_eq_false_iff_ne,
            ne_eq] at hterm
          simp only [getMeeting, henva, if_neg hterm.1, if_neg hterm.2, hrec,
            Prod.mk.injEq]
          exact ⟨trivial, by omega⟩


theorem pollFrom_first_terminal (env : Nat → Except ApiError Meeting) (maxAttempts : Nat)
    (k : Nat) (m : Meeting) (hk : k < maxAttempts) (henvk : env k = Except.ok m)
    (hterm : terminalStatus (env k) = true) :
    ∀ gap attempts, k - attempts = gap → attempts ≤ k →
      (∀ j, j < k → terminalStatus (env j) = false) →
      pollFrom env maxAttempts attempts = (outcomeOf m, k + 1 - attempts) := by
  intro gap
  induction gap with
  | zero =>
      intro attempts hgap hle henv
      have hak : attempts = k := by omega
      subst hak
      rw [pollFrom, dif_neg (by omega : ¬ maxAttempts ≤ attempts)]
      rw [henvk] at hterm
      simp only [terminalStatus, Bool.or_eq_true, beq_iff_eq] at hterm
      rcases hterm with hc | hf
      · simp [getMeeting, henvk, outcomeOf, hc]
      · by_cases hc : m.status = "completed"
        · simp [getMeeting, henvk, outcomeOf, hc]
        · simp [getMeeting, henvk, outcomeOf, hc, hf]
  | succ gap ih =>
      intro attempts hgap hle henv
      have hak : attempts < k := by omega
      rw [pollFrom, dif_neg (by omega : ¬ maxAttempts ≤ attempts)]
      have hnt := henv attempts hak
      have hrec := ih (attempts + 1) (by omega) (by omega) henv
      cases henva : env attempts with
      | error e =>
          simp only [getMeeting, henva, hrec, Prod.mk.injEq]
          exact ⟨trivial, by omega⟩
      | ok m2 =>
          rw [henva] at hnt
          simp only [terminalStatus, Bool.or_eq_false_iff, beq_eq_false_iff_ne,
            ne_eq] at hnt
          simp only [getMeeting, henva, if_neg hnt.1, if_neg hnt.2, hrec,
            Prod.mk.injEq]
          exact ⟨trivial, by omega⟩

theorem pollFrom_count_le (env : Nat → Except ApiError Meeting) (maxAttempts : Nat) :
    ∀ n attempts, maxAttempts - attempts = n →
      (pollFrom env maxAttempts attempts).2 ≤ maxAttempts - attempts := by
  intro n
  induction n with
  | zero =>
      intro attempts hn
      rw [pollFrom, dif_pos (by omega)]
      simp
  | succ n ih =>
      intro attempts hn
      rw [pollFrom, dif_neg (by omega : ¬ maxAttempts ≤ attempts)]
      have hrec := ih (attempts + 1) (by omega)
      cases henva : env attempts with
      | error e =>
          simp only [getMeeting, henva]
          omega
      | ok m =>
          by_cases hc : m.status = "completed"
          · simp only [getMeeting, henva, if_pos hc]
            omega
          · by_cases hf : m.status = "failed"
            · simp only [getMeeting, henva, if_neg hc, if_pos hf]
              omega
            · simp only [getMeeting, henva, if_neg hc, if_neg hf]
              omega

end useTranscription

open useTranscription in
/-- Claim C1: every operation returned by the `useTranscription` hook
(`uploadAudio`, `getMeeting`, `getUserMeetings`, `updateActionItem`,
`deleteMeeting`) turns a failed remote call into a result object
`{ success: false, error: message }` instead of throwing; the message is
`error.response.data.detail` when the server supplied a nonempty one, the
operation-specific fallback otherwise (in particular for a network
failure, where no response exists), and the five fallbacks are pairwise
distinct, so server-reported and network failures are distinguishable. -/
theorem claim_C1 (e : ApiError) :
    uploadAudio (Except.error e) =
      ⟨false, none, some (orFallback (detailOf e) "Upload failed")⟩ ∧
    getMeeting (Except.error e) =
      ⟨false, none, some (orFallback (detailOf e) "Failed to fetch meeting")⟩ ∧
    getUserMeetings (Except.error e) =
      ⟨false, none, some (orFallback (detailOf e) "Failed to fetch meetings")⟩ ∧
    updateActionItem (Except.error e) =
      ⟨false, none, some (orFallback (detailOf e) "Failed to update action item")⟩ ∧
    deleteMeeting (Except.error e) =
      ⟨false, none, some (orFallback (detailOf e) "Failed to delete meeting")⟩ ∧
    (∀ d fallback, detailOf e = some d → d ≠ "" → orFallback (detailOf e) fallback = d) ∧
    (e.response = none → ∀ fallback, orFallback (detailOf e) fallback = fallback) ∧
    List.Pairwise (fun a b => a ≠ b)
      ["Upload failed", "Failed to fetch meeting", "Failed to fetch meetings",
       "Failed to update action item", "Failed to delete meeting"] := by
  refine ⟨rfl, rfl, rfl, rfl, rfl, ?_, ?_, ?_⟩
  · intro d fallback hd hne
    rw [hd]
    simp [orFallback, hne]
  · intro hresp fallback
    simp [detailOf, hresp, orFallback]
  · decide

/-- Witness for C1: a server-reported failure carrying detail `boom`
yields the detail, and a network failure on delete yields that
operation's fallback message. -/
theorem claim_C1_witness :
    useTranscription.uploadAudio (Except.error ⟨some ⟨some ⟨some "boom"⟩⟩⟩) =
      ⟨false, none, some "boom"⟩ ∧
    useTranscription.deleteMeeting (Except.error ⟨none⟩) =
      ⟨false, none, some "Failed to delete meeting"⟩ := by
  constructor
  · have h := claim_C1 ⟨some ⟨some ⟨some "boom"⟩⟩⟩
    have hd := h.2.2.2.2.2.1 "boom" "Upload failed" rfl (by decide)
    rw [h.1, hd]
  · have h := claim_C1 ⟨none⟩
    have hf := h.2.2.2.2.2.2.1 rfl "Failed to delete meeting"
    rw [h.2.2.2.2.1, hf]

open useTranscription in
/-- Claim C2: `pollMeetingStatus` re-fetches at the fixed 5000 ms interval
and always stops within `maxAttempts` fetches (default 60): it stops with
the timeout error when no fetch within `maxAttempts` attempts is
terminal, and it stops at the first fetch whose meeting is `completed` or
`failed` — after exactly `k + 1` fetches when that happens at attempt `k`
— setting the processing-failed error in the `failed` case. -/
theorem claim_C2 (env : Nat → Except ApiError Meeting) (maxAttempts : Nat) :
    pollIntervalMs = 5000 ∧
    defaultMaxAttempts = 60 ∧
    (pollMeetingStatus env maxAttempts).2 ≤ maxAttempts ∧
    ((∀ k, k < maxAttempts → terminalStatus (env k) = false) →
      pollMeetingStatus env maxAttempts = (.timeout, maxAttempts) ∧
      pollError PollOutcome.timeout =
        some "Processing timeout - please check back later") ∧
    (∀ k m, k < maxAttempts → (∀ j, j < k → terminalStatus (env j) = false) →
      env k = Except.ok m →
      (m.status = "completed" →
        pollMeetingStatus env maxAttempts = (.done m, k + 1)) ∧
      (m.status = "failed" →
        pollMeetingStatus env maxAttempts = (.failedStatus, k + 1) ∧
        pollError PollOutcome.failedStatus =
          some "Transcription processing failed")) := by
  refine ⟨rfl, rfl, ?_, ?_, ?_⟩
  · have h := pollFrom_count_le env maxAttempts (maxAttempts - 0) 0 rfl
    simpa [pollMeetingStatus] using h
  · intro henv
    have h := pollFrom_all_nonterminal env maxAttempts (maxAttempts - 0) 0 rfl henv
    exact ⟨by simpa [pollMeetingStatus] using h, rfl⟩
  · intro k m hk hprev henvk
    constructor
    · intro hc
      have hterm : terminalStatus (env k) = true := by
        rw [henvk]; simp [terminalStatus, hc]
      have h := pollFrom_first_terminal env maxAttempts k m hk henvk hterm k 0 rfl
        (Nat.zero_le k) hprev
      rw [pollMeetingStatus, h, outcomeOf, if_pos hc]
      simp
    · intro hf
      have hcm : m.status ≠ "completed" := by rw [hf]; decide
      have hterm : terminalStatus (env k) = true := by
        rw [henvk]; simp [terminalStatus, hf]
      have h := pollFrom_first_terminal env maxAttempts k m hk henvk hterm k 0 rfl
        (Nat.zero_le k) hprev
      refine ⟨?_, rfl⟩
      rw [pollMeetingStatus, h, outcomeOf, if_neg hcm]
      simp

/-- Witness for C2: with a five-attempt budget and the meeting turning
`completed` at the third fetch, polling stops as `done` after exactly
three fetches. -/
theorem claim_C2_witness :
    useTranscription.pollMeetingStatus
        (fun k => if k = 2 then Except.ok ⟨"completed"⟩ else Except.error ⟨none⟩) 5 =
      (useTranscription.PollOutcome.done ⟨"completed"⟩, 3) := by
  have h := claim_C2
    (fun k => if k = 2 then Except.ok ⟨"completed"⟩ else Except.error ⟨none⟩) 5
  exact (h.2.2.2.2 2 ⟨"completed"⟩ (by omega) (by decide) (by rfl)).1 rfl

open participantService in
/-- Claim C4: `validateParticipant` rejects with `Name is required`
exactly when the name is absent or all-whitespace, otherwise rejects with
`Valid email is required` exactly when the email is absent or outside the
language of `/^[^\s@]+@[^\s@]+\.[^\s@]+$/`, and accepts in all remaining
cases. -/
theorem claim_C4 (participant : Participant) :
    (validateParticipant participant = ⟨false, some "Name is required"⟩ ↔
      participant.name = none ∨
        ∃ s, participant.name = some s ∧ s.data.all jsWhitespace = true) ∧
    (validateParticipant participant = ⟨false, some "Valid email is required"⟩ ↔
      ¬(participant.name = none ∨
          ∃ s, participant.name = some s ∧ s.data.all jsWhitespace = true) ∧
        (participant.email = none ∨
          ∃ s, participant.email = some s ∧ ¬ emailRegexMatches s)) ∧
    (validateParticipant participant = ⟨true, none⟩ ↔
      ¬(participant.name = none ∨
          ∃ s, participant.name = some s ∧ s.data.all jsWhitespace = true) ∧
      ¬(participant.email = none ∨
          ∃ s, participant.email = some s ∧ ¬ emailRegexMatches s)) := by
  have hn := nameRejected_iff participant
  have he := emailRejected_iff participant
  by_cases h1 : nameRejected participant = true
  · have hng := hn.mp h1
    refine ⟨iff_of_true (by simp [validateParticipant, h1]) hng,
      iff_of_false (by simp [validateParticipant, h1]) (fun hc => hc.1 hng),
      iff_of_false (by simp [validateParticipant, h1]) (fun hc => hc.1 hng)⟩
  · have h1f : nameRejected participant = false := by
      cases hx : nameRejected participant
      · rfl
      · exact absurd hx h1
    by_cases h2 : emailRejected participant = true
    · have heg := he.mp h2
      refine ⟨iff_of_false (by simp [validateParticipant, h1f, h2])
          (fun hx => h1 (hn.mpr hx)),
        iff_of_true (by simp [validateParticipant, h1f, h2])
          ⟨fun hx => h1 (hn.mpr hx), heg⟩,
        iff_of_false (by simp [validateParticipant, h1f, h2])
          (fun hc => hc.2 heg)⟩
    · have h2f : emailRejected participant = false := by
        cases hx : emailRejected participant
        · rfl
        · exact absurd hx h2
      refine ⟨iff_of_false (by simp [validateParticipant, h1f, h2f])
          (fun hx => h1 (hn.mpr hx)),
        iff_of_false (by simp [validateParticipant, h1f, h2f])
          (fun hc => h2 (he.mpr hc.2)),
        iff_of_true (by simp [validateParticipant, h1f, h2f])
          ⟨fun hx => h1 (hn.mpr hx), fun hx => h2 (he.mpr hx)⟩⟩

open supabaseHelpers in
/-- Counterexample to C3 as frozen: on an all-success environment,
`createMeeting` issues three remote calls (auth user fetch, storage
upload, meetings insert), not one, and `deleteMeeting` issues four (auth
user fetch, meetings read, storage remove, meetings delete), not one —
both contain storage operations and remote reads beyond the single
create/delete call the claim allows. -/
theorem claim_C3_counterexample :
    (createMeeting ⟨some ⟨"u1"⟩, 7, none, some ⟨"m1"⟩, none⟩ (some "t") "a.wav").2 =
      [.authGetUser, .storageUpload "u1/7_a.wav", .dbInsert "meetings"] ∧
    ¬ ((createMeeting ⟨some ⟨"u1"⟩, 7, none, some ⟨"m1"⟩, none⟩
          (some "t") "a.wav").2.length = 1) ∧
    (deleteMeeting ⟨some ⟨"u1"⟩, Except.ok (some "u1/7_a.wav"), none, none⟩ "m1").2 =
      [.authGetUser, .dbSelect "meetings", .storageRemove "u1/7_a.wav",
       .dbDelete "meetings"] ∧
    ¬ ((deleteMeeting ⟨some ⟨"u1"⟩, Except.ok (some "u1/7_a.wav"), none, none⟩
          "m1").2.length = 1) := by
  refine ⟨by decide, by decide, by decide, by decide⟩

open supabaseHelpers in
/-- Claim C3 (amended): meeting lifecycle operations are each a fixed
short sequence of remote calls rather than a single one: on an
authenticated run with a successful upload, `createMeeting` performs
exactly the auth user fetch, one storage upload and one meetings insert,
in that order; on an authenticated run with a successful read,
`deleteMeeting` performs the auth user fetch, one meetings read, a
storage remove exactly when the fetched audio path is truthy, and one
meetings delete; `updateActionItemStatus` is a single remote call. -/
theorem claim_C3 (createEnv : CreateEnv) (deleteEnv : DeleteEnv) (updEnv : UpdateEnv)
    (title : Option String) (audioFileName meetingId actionItemId status : String) :
    (∀ user, createEnv.user = some user → createEnv.uploadError = none →
      (createMeeting createEnv title audioFileName).2 =
        [.authGetUser,
         .storageUpload (user.id ++ "/" ++ toString createEnv.now ++ "_" ++ audioFileName),
         .dbInsert "meetings"]) ∧
    (∀ user path, deleteEnv.user = some user → deleteEnv.fetchedPath = Except.ok path →
      (deleteMeeting deleteEnv meetingId).2 =
        [.authGetUser, .dbSelect "meetings"] ++
          (match jsOrNull path with
           | some p => [RemoteOp.storageRemove p]
           | none => []) ++ [.dbDelete "meetings"]) ∧
    (updateActionItemStatus updEnv actionItemId status).2 = [.dbUpdate "action_items"] := by
  refine ⟨?_, ?_, rfl⟩
  · intro user hu hup
    simp [createMeeting, hu, hup]
  · intro user path hu hp
    cases hd : deleteEnv.deleteError <;> cases hjs : jsOrNull path <;>
      simp [deleteMeeting, hu, hp, hd, hjs]

/-- Witness for the amended C3 at concrete environments, including a
delete with no stored audio path (no storage remove). -/
theorem claim_C3_witness :
    (supabaseHelpers.createMeeting ⟨some ⟨"u2"⟩, 3, none, none, none⟩ none "b.wav").2 =
      [.authGetUser, .storageUpload "u2/3_b.wav", .dbInsert "meetings"] ∧
    (supabaseHelpers.deleteMeeting ⟨some ⟨"u2"⟩, Except.ok none, none, none⟩ "m2").2 =
      [.authGetUser, .dbSelect "meetings", .dbDelete "meetings"] := by
  have h := claim_C3 ⟨some ⟨"u2"⟩, 3, none, none, none⟩
    ⟨some ⟨"u2"⟩, Except.ok none, none, none⟩ ⟨none, none⟩ none "b.wav" "m2" "a1" "pending"
  constructor
  · have h1 := h.1 ⟨"u2"⟩ rfl rfl
    rw [h1]
    decide
  · have h2 := h.2.1 ⟨"u2"⟩ none rfl rfl
    rw [h2]
    rfl

open audioUpload in
/-- Claim C6: `handleFileChange` accepts a selected file exactly when it
is within the 100 MB limit and of valid type (one of the eight MIME
types, or a name whose lowercase form ends in one of the seven
extensions); an oversized file is rejected with the size message before
the type check is consulted, an invalid-type file with the format
message, and in both rejection cases the previously selected file is
kept. -/
theorem claim_C6 (st : UploadFormState) (f : FileInfo) :
    (f.size > maxSize →
      handleFileChange st (some f) =
        ⟨st.file, "File size must be less than 100MB"⟩) ∧
    (f.size ≤ maxSize → isValidType f = true →
      handleFileChange st (some f) = ⟨some f, ""⟩) ∧
    (f.size ≤ maxSize → isValidType f = false →
      handleFileChange st (some f) =
        ⟨st.file,
         "Please select a valid audio file (WAV, MP3, M4A, AAC, OGG, WebM, MP4)"⟩) ∧
    (isValidType f = true ↔
      f.type ∈ validTypes ∨
        ∃ ext ∈ validExtensions, jsEndsWith (jsToLower f.name) ext = true) ∧
    maxSize = 100 * 1024 * 1024 := by
  refine ⟨?_, ?_, ?_, ?_, rfl⟩
  · intro hsz
    simp [handleFileChange, hsz]
  · intro hsz hv
    have hns : ¬ (f.size > maxSize) := by omega
    simp [handleFileChange, hns, hv]
  · intro hsz hv
    have hns : ¬ (f.size > maxSize) := by omega
    simp [handleFileChange, hns, hv]
  · simp [isValidType, Bool.or_eq_true, List.any_eq_true, List.contains, List.elem_iff]

/-- Witness for C6: a lowercased `.mp3` extension is accepted despite a
non-audio MIME type, and a file one byte over the limit is rejected with
the size message. -/
theorem claim_C6_witness :
    audioUpload.handleFileChange ⟨none, "x"⟩ (some ⟨"A.MP3", "application/bin", 5⟩) =
      ⟨some ⟨"A.MP3", "application/bin", 5⟩, ""⟩ ∧
    audioUpload.handleFileChange ⟨none, ""⟩ (some ⟨"big.wav", "audio/wav", 104857601⟩) =
      ⟨none, "File size must be less than 100MB"⟩ := by
  constructor
  · exact (claim_C6 ⟨none, "x"⟩ ⟨"A.MP3", "application/bin", 5⟩).2.1
      (by decide) (by decide)
  · exact (claim_C6 ⟨none, ""⟩ ⟨"big.wav", "audio/wav", 104857601⟩).1 (by decide)

open meetingDetails in
/-- Counterexample to C7 as frozen: `toString` is a status string outside
the four known values, yet `statusConfig['toString']` is a truthy member
inherited from `Object.prototype`, so the `|| statusConfig.pending`
fallback is skipped and the badge does not render the `Pending`
configuration — it renders no classes and no label. -/
theorem claim_C7_counterexample :
    "toString" ∉ ["pending", "processing", "completed", "failed"] ∧
    statusBadge "toString" ≠
      RenderedBadge.badge ⟨"bg-gray-100", "text-gray-700", "Pending"⟩ ∧
    statusBadge "toString" = RenderedBadge.noConfig := by
  refine ⟨by decide, by decide, by decide⟩

open meetingDetails in
/-- Claim C7 (amended): `StatusBadge` renders `Pending`, `Processing`,
`Completed`, `Failed` with their colour classes for the four known
statuses; for every other status string that is not an `Object.prototype`
member name it falls back to the `Pending` configuration; for an
inherited member name (`toString`, `constructor`, `__proto__`, ...) the
truthy inherited value short-circuits the fallback and the badge renders
without classes or label. -/
theorem claim_C7 :
    statusBadge "pending" = .badge ⟨"bg-gray-100", "text-gray-700", "Pending"⟩ ∧
    statusBadge "processing" =
      .badge ⟨"bg-yellow-100", "text-yellow-700", "Processing"⟩ ∧
    statusBadge "completed" = .badge ⟨"bg-green-100", "text-green-700", "Completed"⟩ ∧
    statusBadge "failed" = .badge ⟨"bg-red-100", "text-red-700", "Failed"⟩ ∧
    (∀ status, status ∉ ["pending", "processing", "completed", "failed"] →
      status ∉ objectProtoKeys →
      statusBadge status = .badge ⟨"bg-gray-100", "text-gray-700", "Pending"⟩) ∧
    (∀ status, status ∈ objectProtoKeys → statusBadge status = .noConfig) := by
  refine ⟨by decide, by decide, by decide, by decide, ?_, ?_⟩
  · intro status hmem hproto
    simp only [List.mem_cons, List.not_mem_nil, or_false, not_or] at hmem
    obtain ⟨h1, h2, h3, h4⟩ := hmem
    simp [statusBadge, statusConfig, h1, h2, h3, h4, hproto]
  · intro status hmem
    simp only [objectProtoKeys, List.mem_cons, List.not_mem_nil, or_false] at hmem
    rcases hmem with rfl | rfl | rfl | rfl | rfl | rfl | rfl | rfl | rfl | rfl | rfl |
      rfl <;> decide

/-- Witness for the amended C7: the unknown status `archived` falls back
to the `Pending` configuration, while the inherited key `toString` does
not. -/
theorem claim_C7_witness :
    meetingDetails.statusBadge "archived" =
      meetingDetails.RenderedBadge.badge ⟨"bg-gray-100", "text-gray-700", "Pending"⟩ ∧
    meetingDetails.statusBadge "toString" = meetingDetails.RenderedBadge.noConfig :=
  ⟨claim_C7.2.2.2.2.1 "archived" (by decide) (by decide),
   claim_C7.2.2.2.2.2 "toString" (by decide)⟩

theorem append_ne_empty_left (s t : String) (h : s.data ≠ []) : s ++ t ≠ "" := by
  intro heq
  have hdata : (s ++ t).data = [] := by rw [heq]
  rw [String.data_append] at hdata
  exact h (List.append_eq_nil.mp hdata).1

open audioUpload in
/-- Claim C5: `handleUpload` navigates to `/transcript/<meeting_id>`
exactly when a file is selected, the upload request succeeds, and the
response carries a (truthy) `meeting_id`; in every other case no
navigation happens and a nonempty error message is set. -/
theorem claim_C5 (file : Option FileInfo) (outcome : Except AxiosFailure RespData) :
    (∀ route, (handleUpload file outcome).navigateTo = some route ↔
      ∃ f id, file = some f ∧ outcome = Except.ok ⟨some id⟩ ∧ id ≠ "" ∧
        route = "/transcript/" ++ id) ∧
    ((handleUpload file outcome).navigateTo = none →
      (handleUpload file outcome).error ≠ "") := by
  cases file with
  | none =>
      refine ⟨fun route => ?_, fun _ => by simp [handleUpload]⟩
      constructor
      · intro hnav
        simp [handleUpload] at hnav
      · rintro ⟨f, id, hf, -, -, -⟩
        cases hf
  | some f0 =>
      cases outcome with
      | ok resp =>
          obtain ⟨mid⟩ := resp
          cases mid with
          | none =>
              refine ⟨fun route => ?_, fun _ => by simp [handleUpload]⟩
              constructor
              · intro hnav
                simp [handleUpload] at hnav
              · rintro ⟨f, id, -, hok, hne, -⟩
                simp at hok
          | some id0 =>
              by_cases hid : id0 = ""
              · subst hid
                refine ⟨fun route => ?_, fun _ => by simp [handleUpload]⟩
                constructor
                · intro hnav
                  simp [handleUpload] at hnav
                · rintro ⟨f, id, -, hok, hne, -⟩
                  simp at hok
                  exact absurd hok.symm hne
              · refine ⟨fun route => ?_, fun hnav => ?_⟩
                · constructor
                  · intro hnav
                    have hcomp : (handleUpload (some f0) (Except.ok ⟨some id0⟩)).navigateTo =
                        some ("/transcript/" ++ id0) := by
                      simp [handleUpload, hid]
                    rw [hcomp] at hnav
                    injection hnav with hroute
                    exact ⟨f0, id0, rfl, rfl, hid, hroute.symm⟩
                  · rintro ⟨f, id, -, hok, hne, hroute⟩
                    simp only [Except.ok.injEq, RespData.mk.injEq, Option.some.injEq] at hok
                    subst hok
                    simp [handleUpload, hid, hroute]
                · simp [handleUpload, hid] at hnav
      | error e =>
          refine ⟨fun route => ?_, fun _ => ?_⟩
          · constructor
            · intro hnav
              exfalso
              cases hresp : e.response with
              | some r => simp [handleUpload, hresp] at hnav
              | none =>
                  by_cases hreq : e.request = true
                  · simp [handleUpload, hresp, hreq] at hnav
                  · simp [handleUpload, hresp, hreq] at hnav
            · rintro ⟨f, id, -, hok, -, -⟩
              simp at hok
          · cases hresp : e.response with
            | some r =>
                have hcomp : (handleUpload (some f0) (Except.error e)).error =
                    "Upload failed: " ++ firstTruthy r.detail r.statusText "Server error" := by
                  simp [handleUpload, hresp]
                rw [hcomp]
                exact append_ne_empty_left _ _ (by decide)
            | none =>
                by_cases hreq : e.request = true
                · have hcomp : (handleUpload (some f0) (Except.error e)).error =
                      "Network error: Cannot reach server. Please check your connection." := by
                    simp [handleUpload, hresp, hreq]
                  rw [hcomp]
                  decide
                · have hcomp : (handleUpload (some f0) (Except.error e)).error =
                      "Upload failed: " ++ e.message := by
                    simp [handleUpload, hresp, hreq]
                  rw [hcomp]
                  exact append_ne_empty_left _ _ (by decide)

/-- Witness for C5: a successful upload returning meeting id `m7`
navigates to its transcript page, and a missing file sets an error with
no navigation. -/
theorem claim_C5_witness :
    (audioUpload.handleUpload (some ⟨"a.wav", "audio/wav", 5⟩)
        (Except.ok ⟨some "m7"⟩)).navigateTo = some "/transcript/m7" ∧
    (audioUpload.handleUpload none (Except.ok ⟨some "m7"⟩)).error ≠ "" := by
  constructor
  · exact ((claim_C5 (some ⟨"a.wav", "audio/wav", 5⟩) (Except.ok ⟨some "m7"⟩)).1
      "/transcript/m7").mpr
      ⟨⟨"a.wav", "audio/wav", 5⟩, "m7", rfl, rfl, by decide, rfl⟩
  · exact (claim_C5 none (Except.ok ⟨some "m7"⟩)).2 rfl

theorem filter_bne_of_lt {β : Type} (l : List (Nat × β)) (n m : Nat)
    (h : ∀ r ∈ l, r.1 < n) (hm : n ≤ m) :
    l.filter (fun r => r.1 != m) = l := by
  apply List.filter_eq_self.mpr
  intro a ha
  have := h a ha
  simp only [bne_iff_ne, ne_eq]
  omega

open runtime in
/-- Claim C8: the `MeetingDetails` mount effect registers exactly one
realtime channel (`meeting-<id>`) and one 5000 ms interval, and its
cleanup removes precisely these two, restoring the previous resource
state; `useRecorder.startRecording` registers one 1000 ms interval whose
handle `stopRecording` and the effect cleanup both clear, so after
teardown no interval or channel registered by these components remains
active. -/
theorem claim_C8 (meetingId : String) (st : ResState) (rs : RecorderState)
    (hst : WFRes st) (hrs : WFRes rs.res) :
    (meetingDetailsMount meetingId st).2.intervals =
      ((meetingDetailsMount meetingId st).1.2, 5000) :: st.intervals ∧
    (meetingDetailsMount meetingId st).2.channels =
      ((meetingDetailsMount meetingId st).1.1, "meeting-" ++ meetingId) :: st.channels ∧
    (meetingDetailsCleanup (meetingDetailsMount meetingId st).1
        (meetingDetailsMount meetingId st).2).intervals = st.intervals ∧
    (meetingDetailsCleanup (meetingDetailsMount meetingId st).1
        (meetingDetailsMount meetingId st).2).channels = st.channels ∧
    (startRecording rs).res.intervals = (rs.res.nextId, 1000) :: rs.res.intervals ∧
    (startRecording rs).intervalRef = some rs.res.nextId ∧
    (stopRecording (startRecording rs)).res.intervals = rs.res.intervals ∧
    (stopRecording (startRecording rs)).intervalRef = none ∧
    (recorderCleanup (startRecording rs)).intervals = rs.res.intervals := by
  obtain ⟨hsti, hstc⟩ := hst
  obtain ⟨hrsi, hrsc⟩ := hrs
  refine ⟨rfl, rfl, ?_, ?_, rfl, rfl, ?_, rfl, ?_⟩
  · show (((st.nextId + 1, 5000) :: st.intervals).filter
      (fun r => r.1 != st.nextId + 1)) = st.intervals
    rw [List.filter_cons]
    simp only [bne_self_eq_false, Bool.false_eq_true, if_false]
    exact filter_bne_of_lt st.intervals st.nextId (st.nextId + 1) hsti (by omega)
  · show (((st.nextId, "meeting-" ++ meetingId) :: st.channels).filter
      (fun c => c.1 != st.nextId)) = st.channels
    rw [List.filter_cons]
    simp only [bne_self_eq_false, Bool.false_eq_true, if_false]
    exact filter_bne_of_lt st.channels st.nextId st.nextId hstc (Nat.le_refl _)
  · show (((rs.res.nextId, 1000) :: rs.res.intervals).filter
      (fun r => r.1 != rs.res.nextId)) = rs.res.intervals
    rw [List.filter_cons]
    simp only [bne_self_eq_false, Bool.false_eq_true, if_false]
    exact filter_bne_of_lt rs.res.intervals rs.res.nextId rs.res.nextId hrsi (Nat.le_refl _)
  · show (((rs.res.nextId, 1000) :: rs.res.intervals).filter
      (fun r => r.1 != rs.res.nextId)) = rs.res.intervals
    rw [List.filter_cons]
    simp only [bne_self_eq_false, Bool.false_eq_true, if_false]
    exact filter_bne_of_lt rs.res.intervals rs.res.nextId rs.res.nextId hrsi (Nat.le_refl _)

/-- Witness for C8 starting from the empty resource state. -/
theorem claim_C8_witness :
    (runtime.meetingDetailsCleanup (runtime.meetingDetailsMount "m1" ⟨[], [], 0⟩).1
        (runtime.meetingDetailsMount "m1" ⟨[], [], 0⟩).2).intervals = [] ∧
    (runtime.meetingDetailsCleanup (runtime.meetingDetailsMount "m1" ⟨[], [], 0⟩).1
        (runtime.meetingDetailsMount "m1" ⟨[], [], 0⟩).2).channels = [] ∧
    (runtime.stopRecording (runtime.startRecording ⟨⟨[], [], 0⟩, none⟩)).res.intervals =
      [] := by
  have h := claim_C8 "m1" ⟨[], [], 0⟩ ⟨⟨[], [], 0⟩, none⟩
    ⟨by simp, by simp⟩ ⟨by simp, by simp⟩
  exact ⟨h.2.2.1, h.2.2.2.1, h.2.2.2.2.2.2.1⟩

theorem isCreator_iff (creatorEmail : Option String) (p : mobileService.PartIn) :
    mobileService.isCreator creatorEmail p = true ↔
      ∃ ce e, creatorEmail = some ce ∧ ce ≠ "" ∧ p.email = some e ∧ jsToLower e = ce := by
  cases creatorEmail with
  | none => simp [mobileService.isCreator]
  | some ce =>
      simp only [mobileService.isCreator, Bool.and_eq_true, bne_iff_ne, ne_eq,
        beq_iff_eq, Option.map_eq_some', Option.some.injEq]
      constructor
      · rintro ⟨hne, e, he, hlow⟩
        exact ⟨ce, e, rfl, hne, he, hlow⟩
      · rintro ⟨ce2, e, rfl, hne, he, hlow⟩
        exact ⟨hne, e, he, hlow⟩

theorem addParticipants_getD (meetingId : String) (creatorUserId : Option String)
    (authUser : Option mobileService.MobileUser)
    (participants : List mobileService.PartIn) (i : Nat)
    (hi : i < participants.length) (dflt : mobileService.PartRecord)
    (pdflt : mobileService.PartIn) :
    (mobileService.addParticipants meetingId creatorUserId authUser participants).getD
        i dflt =
      mobileService.participantRecord meetingId creatorUserId
        (mobileService.creatorEmailOf creatorUserId authUser) i
        (participants.getD i pdflt) := by
  have hlen : i <
      (mobileService.addParticipants meetingId creatorUserId authUser participants).length := by
    rw [mobileService.addParticipants, List.length_mapIdx]
    exact hi
  rw [List.getD_eq_getElem _ _ hlen, List.getD_eq_getElem _ _ hi]
  rw [← List.get_eq_getElem _ ⟨i, hlen⟩, ← List.get_eq_getElem _ ⟨i, hi⟩]
  exact List.get_mapIdx participants _ i hi

open mobileService in
/-- Claim C9: in the mobile `addParticipants` the participant at index 0
always receives role `admin`; a participant at a later index receives
`admin` exactly when the creator's email is known (truthy) and equals
that participant's email ignoring case, and `user` otherwise; and any
participant matching the creator has `user_id` set to the creator's id. -/
theorem claim_C9 (meetingId : String) (creatorUserId : Option String)
    (authUser : Option MobileUser) (participants : List PartIn)
    (dflt : PartRecord) (pdflt : PartIn) :
    (addParticipants meetingId creatorUserId authUser participants).length =
      participants.length ∧
    (0 < participants.length →
      ((addParticipants meetingId creatorUserId authUser participants).getD
          0 dflt).role = "admin") ∧
    (∀ i, 0 < i → i < participants.length →
      (((addParticipants meetingId creatorUserId authUser participants).getD
            i dflt).role = "admin" ↔
        ∃ ce e, creatorEmailOf creatorUserId authUser = some ce ∧ ce ≠ "" ∧
          (participants.getD i pdflt).email = some e ∧ jsToLower e = ce)) ∧
    (∀ i, i < participants.length →
      isCreator (creatorEmailOf creatorUserId authUser)
          (participants.getD i pdflt) = true →
      ((addParticipants meetingId creatorUserId authUser participants).getD
          i dflt).user_id = creatorUserId) := by
  refine ⟨?_, ?_, ?_, ?_⟩
  · rw [addParticipants, List.length_mapIdx]
  · intro hpos
    rw [addParticipants_getD meetingId creatorUserId authUser participants 0 hpos dflt pdflt]
    simp [participantRecord]
  · intro i hpos hi
    rw [addParticipants_getD meetingId creatorUserId authUser participants i hi dflt pdflt]
    have hz : (i == 0) = false := by
      simp only [beq_eq_false_iff_ne, ne_eq]
      omega
    constructor
    · intro hrole
      simp only [participantRecord, hz, Bool.false_or] at hrole
      by_cases hcr : isCreator (creatorEmailOf creatorUserId authUser)
          (participants.getD i pdflt) = true
      · exact (isCreator_iff _ _).mp hcr
      · rw [if_neg hcr] at hrole
        exact absurd hrole (by decide)
    · intro hex
      have hcr := (isCreator_iff _ _).mpr hex
      simp only [participantRecord, hz, hcr, Bool.false_or]
      simp
  · intro i hi hcr
    rw [addParticipants_getD meetingId creatorUserId authUser participants i hi dflt pdflt]
    simp only [participantRecord, hcr, Bool.or_true]
    simp

/-- Witness for C9: with creator `u9` whose email is `B@c.d`, the first
participant is admin by position, the second is admin by
case-insensitive email match and inherits the creator's `user_id`. -/
theorem claim_C9_witness :
    ((mobileService.addParticipants "mt" (some "u9") (some ⟨"u9", some "B@c.d"⟩)
        [⟨"p0", some "z@z.z", none⟩, ⟨"p1", some "B@C.D", none⟩,
         ⟨"p2", some "w@w.w", none⟩]).getD 0 ⟨"", "", none, none, ""⟩).role = "admin" ∧
    ((mobileService.addParticipants "mt" (some "u9") (some ⟨"u9", some "B@c.d"⟩)
        [⟨"p0", some "z@z.z", none⟩, ⟨"p1", some "B@C.D", none⟩,
         ⟨"p2", some "w@w.w", none⟩]).getD 1 ⟨"", "", none, none, ""⟩).role = "admin" ∧
    ((mobileService.addParticipants "mt" (some "u9") (some ⟨"u9", some "B@c.d"⟩)
        [⟨"p0", some "z@z.z", none⟩, ⟨"p1", some "B@C.D", none⟩,
         ⟨"p2", some "w@w.w", none⟩]).getD 1 ⟨"", "", none, none, ""⟩).user_id =
      some "u9" := by
  have h := claim_C9 "mt" (some "u9") (some ⟨"u9", some "B@c.d"⟩)
    [⟨"p0", some "z@z.z", none⟩, ⟨"p1", some "B@C.D", none⟩, ⟨"p2", some "w@w.w", none⟩]
    ⟨"", "", none, none, ""⟩ ⟨"", none, none⟩
  refine ⟨h.2.1 (by decide), ?_, h.2.2.2 1 (by decide) (by decide)⟩
  exact (h.2.2.1 1 (by decide) (by decide)).mpr ⟨"b@c.d", "B@C.D", by decide, by decide,
    rfl, by decide⟩

theorem mem_mapIdx_pair (items : List actionItems.BoardItem)
    (p : actionItems.BoardItem × Nat)
    (hp : p ∈ items.mapIdx (fun index item => (item, index))) : p.1 ∈ items := by
  rw [List.mapIdx_eq_enum_map] at hp
  obtain ⟨x, hx, hxp⟩ := List.mem_map.mp hp
  have hmem : x.2 ∈ items := List.getElem?_mem (List.mem_enum_iff_getElem?.mp hx)
  have hp1 : p.1 = x.2 := by
    rw [← hxp]
    rfl
  rw [hp1]
  exact hmem

theorem filter_three_parts (L : List (actionItems.BoardItem × Nat))
    (h : ∀ p ∈ L, actionItems.effStatus p.1 = "pending" ∨
      actionItems.effStatus p.1 = "in_progress" ∨
      actionItems.effStatus p.1 = "completed") :
    (L.filter (fun it => actionItems.effStatus it.1 == "pending")).length +
      (L.filter (fun it => actionItems.effStatus it.1 == "in_progress")).length +
      (L.filter (fun it => actionItems.effStatus it.1 == "completed")).length =
      L.length := by
  induction L with
  | nil => simp
  | cons a t ih =>
      have iht := ih (fun p hp => h p (by simp [hp]))
      rcases h a (by simp) with ha | ha | ha
      · have c1 : (actionItems.effStatus a.1 == "pending") = true := by rw [ha]; rfl
        have c2 : (actionItems.effStatus a.1 == "in_progress") = false := by rw [ha]; rfl
        have c3 : (actionItems.effStatus a.1 == "completed") = false := by rw [ha]; rfl
        simp only [List.filter_cons, c1, c2, c3, eq_self_iff_true, Bool.false_eq_true,
          if_true, if_false, List.length_cons]
        omega
      · have c1 : (actionItems.effStatus a.1 == "pending") = false := by rw [ha]; rfl
        have c2 : (actionItems.effStatus a.1 == "in_progress") = true := by rw [ha]; rfl
        have c3 : (actionItems.effStatus a.1 == "completed") = false := by rw [ha]; rfl
        simp only [List.filter_cons, c1, c2, c3, eq_self_iff_true, Bool.false_eq_true,
          if_true, if_false, List.length_cons]
        omega
      · have c1 : (actionItems.effStatus a.1 == "pending") = false := by rw [ha]; rfl
        have c2 : (actionItems.effStatus a.1 == "in_progress") = false := by rw [ha]; rfl
        have c3 : (actionItems.effStatus a.1 == "completed") = true := by rw [ha]; rfl
        simp only [List.filter_cons, c1, c2, c3, eq_self_iff_true, Bool.false_eq_true,
          if_true, if_false, List.length_cons]
        omega

open actionItems in
/-- Counterexample to C10 as frozen: the empty-string status is neither
one of the three known statuses nor missing or null, yet
`item.status || 'pending'` is `'pending'` for it, so the item is placed
in the `pending` column instead of disappearing from the board. -/
theorem claim_C10_counterexample :
    (⟨"t", some ""⟩ : BoardItem).status = some "" ∧
    "" ∉ columnIds ∧
    getItemsByStatus [⟨"t", some ""⟩] "pending" = [(⟨"t", some ""⟩, 0)] := by
  refine ⟨rfl, by decide, by decide⟩

open actionItems in
/-- Claim C10 (amended): an item sits in the column matching its
effective status (`item.status || 'pending'`, so a missing, null or
empty-string status counts as `pending`); when every item's effective
status is one of the three column ids the three column lengths sum to
the board total; and an item whose effective status is outside the three
columns appears in no column. -/
theorem claim_C10 (items : List BoardItem) :
    (∀ p status, p ∈ getItemsByStatus items status ↔
      p ∈ items.mapIdx (fun index item => (item, index)) ∧ effStatus p.1 = status) ∧
    ((∀ item ∈ items, effStatus item ∈ columnIds) →
      (getItemsByStatus items "pending").length +
        (getItemsByStatus items "in_progress").length +
        (getItemsByStatus items "completed").length = items.length) ∧
    (∀ item : BoardItem, item.status = none ∨ item.status = some "" →
      effStatus item = "pending") ∧
    (∀ p status, effStatus p.1 ∉ columnIds → status ∈ columnIds →
      p ∉ getItemsByStatus items status) := by
  refine ⟨?_, ?_, ?_, ?_⟩
  · intro p status
    simp [getItemsByStatus, List.mem_filter]
  · intro hall
    have hL : ∀ p ∈ items.mapIdx (fun index item => (item, index)),
        effStatus p.1 = "pending" ∨ effStatus p.1 = "in_progress" ∨
        effStatus p.1 = "completed" := by
      intro p hp
      have := hall p.1 (mem_mapIdx_pair items p hp)
      simpa [columnIds] using this
    have hsum := filter_three_parts _ hL
    simpa [getItemsByStatus, List.length_mapIdx] using hsum
  · intro item hstat
    rcases hstat with h | h <;> simp [effStatus, h]
  · intro p status hout hin hpmem
    simp only [getItemsByStatus, List.mem_filter, beq_iff_eq] at hpmem
    exact hout (hpmem.2 ▸ hin)

/-- Witness for the amended C10 on a three-item board with one item of
each known status (one of them via a missing status). -/
theorem claim_C10_witness :
    (actionItems.getItemsByStatus
        [⟨"a", none⟩, ⟨"b", some "in_progress"⟩, ⟨"c", some "completed"⟩]
        "pending").length +
      (actionItems.getItemsByStatus
        [⟨"a", none⟩, ⟨"b", some "in_progress"⟩, ⟨"c", some "completed"⟩]
        "in_progress").length +
      (actionItems.getItemsByStatus
        [⟨"a", none⟩, ⟨"b", some "in_progress"⟩, ⟨"c", some "completed"⟩]
        "completed").length = 3 :=
  (claim_C10 [⟨"a", none⟩, ⟨"b", some "in_progress"⟩, ⟨"c", some "completed"⟩]).2.1
    (by decide)

end MinuteWise
